import Mathlib

/-!
Formal model of the GuaritaIP TCP client (src/guaritaip/GuaritaIP.py).

The model covers the frame codec (checksum framing over hex strings,
the extra-byte workaround, binary-coded-decimal digit extraction) and
the per-command operations (write_id_str, read_datetime, reset,
refresh_rx).  Python strings are modelled as Lean strings, bytes as
lists of natural numbers below 256, and the TCP transport as an
oracle function supplied to each operation: the oracle receives the
message, the requested response size and the timeout, and returns
either the raw reply bytes or none, standing for the False value that
_send_to_device produces on a connect timeout or a missing handshake
acknowledgment.  Python exceptions raised by the modelled primitives
(int conversion, utf-8 decoding, datetime range validation, a2b_hex)
are modelled with Except / Option results.
-/

namespace GuaritaIP

/-- Errors raised by the modelled Python primitives. -/
inductive PyErr
  | valueError
  | unicodeDecodeError
deriving DecidableEq

/-- Decidable equality for the modelled exception results. -/
instance {ε α : Type} [DecidableEq ε] [DecidableEq α] : DecidableEq (Except ε α) :=
  fun a b =>
    match a, b with
    | .ok x, .ok y =>
      if h : x = y then .isTrue (by rw [h]) else .isFalse (fun hc => h (Except.ok.inj hc))
    | .error x, .error y =>
      if h : x = y then .isTrue (by rw [h]) else .isFalse (fun hc => h (Except.error.inj hc))
    | .ok _, .error _ => .isFalse (fun hc => Except.noConfusion hc)
    | .error _, .ok _ => .isFalse (fun hc => Except.noConfusion hc)

/-- Result of datetime.datetime: the six calendar fields. -/
structure DateTime where
  year : Nat
  month : Nat
  day : Nat
  hour : Nat
  minute : Nat
  second : Nat
deriving DecidableEq

/-- The transport oracle: message bytes, expected response size and
timeout in, optional reply bytes out (none models the False returned
by _send_to_device on failure to connect or to get a handshake ack). -/
abbrev SendFn := List Nat → Nat → Nat → Option (List Nat)

/-- A transport oracle on which every exchange fails. -/
def sendNone : SendFn := fun _ _ _ => none

/-- Hexadecimal value of one character: the digit classes accepted by
int(s, 16) and binascii.a2b_hex for a single hex digit. -/
def hexVal? (c : Char) : Option Nat :=
  let n := c.toNat
  if 48 ≤ n ∧ n ≤ 57 then some (n - 48)
  else if 97 ≤ n ∧ n ≤ 102 then some (n - 87)
  else if 65 ≤ n ∧ n ≤ 70 then some (n - 55)
  else none

/-- Accumulator loop for pyIntHex. -/
def pyIntHexGo : Nat → List Char → Option Nat
  | acc, [] => some acc
  | acc, c :: rest =>
    match hexVal? c with
    | some v => pyIntHexGo (16 * acc + v) rest
    | none => none

/-- Model of int(s, 16) on a plain string of hex digits: none models
the ValueError raised on an empty or non-hex string.  (CPython also
tolerates surrounding whitespace, a sign and inner underscores; no
call site of the source feeds such strings, and the model treats them
as invalid.) -/
def pyIntHex (l : List Char) : Option Nat :=
  if l = [] then none else pyIntHexGo 0 l

/-- The two-character slices input_hex[i:i+2] for i in range(0, len, 2):
a trailing odd character yields a final one-character chunk. -/
def chunkPairs : List Char → List (List Char)
  | [] => []
  | [c] => [[c]]
  | a :: b :: rest => [a, b] :: chunkPairs rest

/-- Sum of the int(chunk, 16) values of all chunks; none models the
ValueError raised when some chunk is not parsable. -/
def sumHexChunks : List (List Char) → Option Nat
  | [] => some 0
  | ch :: rest =>
    match pyIntHex ch, sumHexChunks rest with
    | some v, some r => some (v + r)
    | _, _ => none

/-- Model of binascii.a2b_hex: pairs of hex digits to byte values;
none models the Error raised on odd length or a non-hex character. -/
def a2bHex : List Char → Option (List Nat)
  | [] => some []
  | [_] => none
  | a :: b :: rest =>
    match hexVal? a, hexVal? b, a2bHex rest with
    | some hi, some lo, some t => some ((16 * hi + lo) :: t)
    | _, _, _ => none

/-- Lowercase hex digit character for a value below 16. -/
def hexDig (v : Nat) : Char :=
  if v < 10 then Char.ofNat (48 + v) else Char.ofNat (87 + v)

/-- Fuel-driven digit loop for natHexDigits; the fuel is a recursion
bound only and never runs out when it starts at n. -/
def natHexAux : Nat → Nat → List Char
  | 0, n => [hexDig n]
  | fuel + 1, n =>
    if n < 16 then [hexDig n]
    else natHexAux fuel (n / 16) ++ [hexDig (n % 16)]

/-- Hex digit characters of n, most significant first, no leading
zeros (the digits part of the Python hex() builtin). -/
def natHexDigits (n : Nat) : List Char := natHexAux n n

/-- Model of the Python hex() builtin: the 0x prefix then the digits. -/
def pyHex (n : Nat) : List Char := '0' :: 'x' :: natHexDigits n

/-- Python slice s[-2:]: the last two characters (the whole string
when it is shorter than two characters). -/
def takeLast2 (l : List Char) : List Char := l.drop (l.length - 2)

/-- Model of the Python call s.lstrip with the two characters 0 and x:
drop every leading character that is either of them. -/
def lstrip0x (l : List Char) : List Char :=
  l.dropWhile (fun c => c == '0' || c == 'x')

/-- Model of s.zfill(2): left-pad with the zero character to width 2. -/
def zfill2 (l : List Char) : List Char :=
  if l.length < 2 then List.replicate (2 - l.length) '0' ++ l else l

/-- Model of GuaritaIP._add_checksum: sum the byte values of the hex
string, render the checksum with the hex()-slicing trick of the
source, append it, and convert the whole hex string to raw bytes.
none models the exceptions raised on malformed hex input. -/
def add_checksum (s : String) : Option (List Nat) :=
  match sumHexChunks (chunkPairs s.toList) with
  | none => none
  | some cs =>
    let csChars := if cs > 255 then takeLast2 (pyHex cs) else lstrip0x (pyHex cs)
    a2bHex (s.toList ++ zfill2 csChars)

/-- Model of GuaritaIP._remove_extra_byte, including the empty slice
input_hex[2:2] that the source compares against. -/
def remove_extra_byte (s : String) : String :=
  let first2 := s.toList.take 2
  let slice22 := (s.toList.drop 2).take 0
  if first2 = slice22 ∧ first2 = "00".toList then
    String.mk (s.toList.drop 2)
  else s

/-- Model of GuaritaIP._bcdDigits with ord already applied: the input
is the list of code points, the output the list of the strings the
generator yields.  For each value the high nibble then the low nibble
is rendered with str, and the generator returns at the first nibble
equal to 0xF. -/
def bcdDigits : List Nat → List String
  | [] => []
  | c :: rest =>
    if c >>> 4 = 15 then []
    else if c &&& 15 = 15 then [toString (c >>> 4)]
    else toString (c >>> 4) :: toString (c &&& 15) :: bcdDigits rest

/-- The nibble stream named by the spec: for each byte the high nibble
then the low nibble, with no terminator handling.  Used only to state
the spec-side characterisation of bcdDigits. -/
def specNibbles : List Nat → List Nat
  | [] => []
  | c :: rest => (c >>> 4) :: (c &&& 15) :: specNibbles rest

/-- A string consisting of exactly one decimal digit character. -/
def isDigitStr (s : String) : Bool :=
  match s.toList with
  | [c] => c.isDigit
  | _ => false

/-- A UTF-8 continuation byte. -/
def contByte (b : Nat) : Bool := 128 ≤ b && b ≤ 191

/-- Model of str(bytes, utf_8) under the strict CPython decoder,
returning the list of decoded code points: ASCII passes through,
multi-byte sequences are checked for valid leading and continuation
bytes (rejecting overlong forms and surrogates); the error models the
UnicodeDecodeError raised on invalid input. -/
def utf8Decode : List Nat → Except PyErr (List Nat)
  | [] => .ok []
  | b :: rest =>
    if b < 128 then
      match utf8Decode rest with
      | .ok t => .ok (b :: t)
      | .error e => .error e
    else if 194 ≤ b && b ≤ 223 then
      match rest with
      | c1 :: rest1 =>
        if contByte c1 then
          match utf8Decode rest1 with
          | .ok t => .ok (((b - 192) * 64 + (c1 - 128)) :: t)
          | .error e => .error e
        else .error .unicodeDecodeError
      | [] => .error .unicodeDecodeError
    else if 224 ≤ b && b ≤ 239 then
      match rest with
      | c1 :: c2 :: rest2 =>
        if (if b = 224 then decide (160 ≤ c1) && decide (c1 ≤ 191)
            else if b = 237 then decide (128 ≤ c1) && decide (c1 ≤ 159)
            else contByte c1) && contByte c2 then
          match utf8Decode rest2 with
          | .ok t => .ok (((b - 224) * 4096 + (c1 - 128) * 64 + (c2 - 128)) :: t)
          | .error e => .error e
        else .error .unicodeDecodeError
      | _ => .error .unicodeDecodeError
    else if 240 ≤ b && b ≤ 244 then
      match rest with
      | c1 :: c2 :: c3 :: rest3 =>
        if (if b = 240 then decide (144 ≤ c1) && decide (c1 ≤ 191)
            else if b = 244 then decide (128 ≤ c1) && decide (c1 ≤ 143)
            else contByte c1) && contByte c2 && contByte c3 then
          match utf8Decode rest3 with
          | .ok t =>
            .ok (((b - 240) * 262144 + (c1 - 128) * 4096 + (c2 - 128) * 64
              + (c3 - 128)) :: t)
          | .error e => .error e
        else .error .unicodeDecodeError
      | _ => .error .unicodeDecodeError
    else .error .unicodeDecodeError

/-- Accumulator loop for pyIntDec. -/
def pyIntDecGo : Nat → List Char → Option Nat
  | acc, [] => some acc
  | acc, c :: rest =>
    if c.isDigit then pyIntDecGo (10 * acc + (c.toNat - 48)) rest else none

/-- Model of int(s) on a plain string of decimal digits: the error
models the ValueError raised on an empty or non-digit string.
(CPython also tolerates surrounding whitespace, a sign and inner
underscores; no call site of the source feeds such strings, and the
model treats them as invalid.) -/
def pyIntDec (s : String) : Except PyErr Nat :=
  if s.toList = [] then .error .valueError
  else
    match pyIntDecGo 0 s.toList with
    | some v => .ok v
    | none => .error .valueError

/-- Model of the str.join call with the empty separator. -/
def pyJoin (l : List String) : String := l.foldl (fun a b => a ++ b) ""

/-- Gregorian leap year rule, as used by datetime.datetime. -/
def isLeapYear (y : Nat) : Bool :=
  (y % 4 = 0 && !(y % 100 = 0)) || y % 400 = 0

/-- Days in a month, as validated by datetime.datetime. -/
def daysInMonth (y m : Nat) : Nat :=
  if m = 2 then (if isLeapYear y then 29 else 28)
  else if m = 4 ∨ m = 6 ∨ m = 9 ∨ m = 11 then 30
  else 31

/-- Model of the datetime.datetime constructor: the error models the
ValueError raised on out-of-range fields. -/
def pyDatetime (y m d h mi s : Nat) : Except PyErr DateTime :=
  if 1 ≤ y ∧ y ≤ 9999 ∧ 1 ≤ m ∧ m ≤ 12 ∧ 1 ≤ d ∧ d ≤ daysInMonth y m
      ∧ h ≤ 23 ∧ mi ≤ 59 ∧ s ≤ 59 then
    .ok ⟨y, m, d, h, mi, s⟩
  else .error .valueError

/-- The decode path of GuaritaIP.read_datetime on a truthy reply r:
utf-8 decode of r[2:8], BCD digit extraction, the six int() field
parses in source order, then the datetime constructor. -/
def readDatetimeDecode (r : List Nat) : Except PyErr DateTime := do
  let chars ← utf8Decode ((r.drop 2).take 6)
  let digits := bcdDigits chars
  let year ← pyIntDec ("20" ++ pyJoin ((digits.drop 4).take 2))
  let month ← pyIntDec (pyJoin ((digits.drop 2).take 2))
  let day ← pyIntDec (pyJoin (digits.take 2))
  let hour ← pyIntDec (pyJoin ((digits.drop 6).take 2))
  let minute ← pyIntDec (pyJoin ((digits.drop 8).take 2))
  let second ← pyIntDec (pyJoin (digits.drop 10))
  pyDatetime year month day hour minute second

/-- Model of GuaritaIP.read_datetime as a function of the transport
result: a falsy result (failure or empty bytes) yields datetime(1,1,1),
a truthy reply goes through the decode path. -/
def read_datetime : Option (List Nat) → Except PyErr DateTime
  | none => pyDatetime 1 1 1 0 0 0
  | some r => if r = [] then pyDatetime 1 1 1 0 0 0 else readDatetimeDecode r

/-- Model of GuaritaIP.write_id_str: the boolean result (or the
exception propagated from _add_checksum) paired with the trace of the
messages handed to _send_to_device, in order.  The which_row = 0
branch short-circuits: the second frame is sent only when the first
reply matches. -/
def write_id_str (send : SendFn) (whichRow : Int) (row2 row3 : String)
    (timeout defaultTimeout : Nat) : Except PyErr Bool × List (List Nat) :=
  if row2.length > 20 ∨ row3.length > 20 then (.ok false, [])
  else
    let t := if timeout = 0 then defaultTimeout else timeout
    match add_checksum ("0001" ++ row2) with
    | none => (.error .valueError, [])
    | some msgRow2 =>
      if whichRow = 0 then
        match add_checksum ("0002" ++ row3) with
        | none => (.error .valueError, [])
        | some msgRow3 =>
          if send msgRow2 3 t = some [0, 1, 1] then
            if send msgRow3 3 t = some [0, 2, 2] then (.ok true, [msgRow2, msgRow3])
            else (.ok false, [msgRow2, msgRow3])
          else (.ok false, [msgRow2])
      else if whichRow = 2 then
        if send msgRow2 3 t = some [0, 1, 1] then (.ok true, [msgRow2])
        else (.ok false, [msgRow2])
      else if whichRow = 3 then
        match add_checksum ("0002" ++ row2) with
        | none => (.error .valueError, [])
        | some msgRow3 =>
          if send msgRow3 3 t = some [0, 2, 2] then (.ok true, [msgRow3])
          else (.ok false, [msgRow3])
      else (.ok false, [])

/-- Model of GuaritaIP.reset: send the fixed 3-byte request and
compare the reply with the request itself. -/
def reset (send : SendFn) (timeout defaultTimeout : Nat) : Bool :=
  let t := if timeout = 0 then defaultTimeout else timeout
  if send [0, 24, 24] 3 t = some [0, 24, 24] then true else false

/-- Model of GuaritaIP.refresh_rx: send the fixed 3-byte request and
compare the reply with the fixed 4-byte success constant. -/
def refresh_rx (send : SendFn) (timeout : Nat) : Bool :=
  if send [0, 29, 29] 4 timeout = some [0, 29, 0, 29] then true else false

/-- Unfolding lemma for the digit loop at positive fuel. -/
theorem natHexAux_succ (fuel n : Nat) :
    natHexAux (fuel + 1) n =
      if n < 16 then [hexDig n] else natHexAux fuel (n / 16) ++ [hexDig (n % 16)] := rfl

/-- Unfolding lemma: a value below 16 is a single hex digit. -/
theorem natHexDigits_lt {n : Nat} (h : n < 16) : natHexDigits n = [hexDig n] := by
  cases n with
  | zero => rfl
  | succ m =>
    show natHexAux (m + 1) (m + 1) = _
    rw [natHexAux_succ, if_pos h]

/-- The fuel of natHexAux is irrelevant once it dominates the value. -/
theorem natHexAux_eq : ∀ fuel n : Nat, n ≤ fuel → natHexAux fuel n = natHexDigits n := by
  intro fuel
  induction fuel using Nat.strong_induction_on with
  | _ fuel ih =>
    intro n hn
    cases fuel with
    | zero =>
      interval_cases n
      rfl
    | succ f =>
      rw [natHexAux_succ]
      by_cases h16 : n < 16
      · rw [if_pos h16, natHexDigits_lt h16]
      · rw [if_neg h16]
        obtain ⟨m, rfl⟩ : ∃ m, n = m + 1 := ⟨n - 1, by omega⟩
        show _ = natHexAux (m + 1) (m + 1)
        rw [natHexAux_succ, if_neg h16]
        rw [ih f (by omega) _ (by omega), ih m (by omega) _ (by omega)]

/-- Unfolding lemma: a value of 16 or more ends in its last digit. -/
theorem natHexDigits_ge {n : Nat} (h : 16 ≤ n) :
    natHexDigits n = natHexDigits (n / 16) ++ [hexDig (n % 16)] := by
  obtain ⟨m, rfl⟩ : ∃ m, n = m + 1 := ⟨n - 1, by omega⟩
  show natHexAux (m + 1) (m + 1) = _
  rw [natHexAux_succ, if_neg (by omega), natHexAux_eq m _ (by omega)]

/-- Every string rendered from a value below 10 is one digit character. -/
theorem isDigitStr_toString : ∀ v : Nat, v < 10 → isDigitStr (toString v) = true := by
  decide

/-- Claim C2: bcdDigits yields, for each byte in order, the rendered
high nibble then the rendered low nibble, cut off at the first nibble
equal to 0xF; on the bytes 0x12 0x34 0xFF it yields exactly 1 2 3 4,
and on the empty input it yields nothing. -/
theorem claim_C2 :
    (∀ bs : List Nat, bcdDigits bs =
      ((specNibbles bs).takeWhile (fun v => v != 15)).map (fun v => toString v))
    ∧ bcdDigits [18, 52, 255] = ["1", "2", "3", "4"]
    ∧ bcdDigits [] = [] := by
  refine ⟨?_, by decide, rfl⟩
  intro bs
  induction bs with
  | nil => rfl
  | cons c rest ih =>
    by_cases h1 : c >>> 4 = 15
    · simp [bcdDigits, specNibbles, h1]
    · by_cases h2 : c &&& 15 = 15
      · simp [bcdDigits, specNibbles, h1, h2]
      · simp [bcdDigits, specNibbles, h1, h2, ih]

/-- Claim C4: reset reports success exactly when the raw reply equals
the request bytes 00 18 18, and refresh_rx exactly when the raw reply
equals the constant 00 1d 00 1d; every other transport outcome,
including failure, yields false. -/
theorem claim_C4 : ∀ (send : SendFn) (t dt : Nat),
    reset send t dt
      = decide (send [0, 24, 24] 3 (if t = 0 then dt else t) = some [0, 24, 24])
    ∧ refresh_rx send t
      = decide (send [0, 29, 29] 4 t = some [0, 29, 0, 29]) := by
  intro send t dt
  constructor
  · simp only [reset]
    split <;> simp_all
  · simp only [refresh_rx]
    split <;> simp_all

/-- Claim C5, behaviour of the source at the failing input: the guard
of _remove_extra_byte compares the first two characters with the
empty slice input_hex[2:2], so it never fires and the function
returns every input unchanged, contrary to the claim and to its own
docstring. -/
theorem claim_C5_code_eval :
    remove_extra_byte "000012" = "000012" ∧ ∀ s : String, remove_extra_byte s = s := by
  refine ⟨rfl, ?_⟩
  intro s
  simp only [remove_extra_byte]
  rw [if_neg]
  rintro ⟨h1, h2⟩
  rw [List.take_zero] at h1
  rw [h1] at h2
  exact absurd h2 (by decide)

/-- Claim C6, counterexample: a truthy 10-byte reply whose payload
terminates the BCD stream after a single digit makes read_datetime
raise a ValueError (the month field is parsed from an empty string)
instead of returning a falsy or sentinel value. -/
theorem claim_C6_counterexample :
    read_datetime (some [0, 12, 15, 15, 15, 15, 15, 15, 0, 0])
      = .error .valueError := by
  rfl

/-- Claim C6 as amended: a transport failure (connect timeout, missing
handshake acknowledgment, or no bytes received) is surfaced by
read_datetime as the sentinel timestamp and never as an exception;
the no-exception guarantee does not extend to truthy replies whose
content fails decode validation. -/
theorem claim_C6_amended : ∀ r : Option (List Nat), (r = none ∨ r = some []) →
    read_datetime r = .ok ⟨1, 1, 1, 0, 0, 0⟩ := by
  rintro r (rfl | rfl) <;> rfl

/-- Witness for the amended claim C6 at the failed-connect outcome. -/
theorem claim_C6_witness : read_datetime none = .ok ⟨1, 1, 1, 0, 0, 0⟩ :=
  claim_C6_amended none (Or.inl rfl)

/-- Claim C7, behaviour of the source at the failing input: asked to
write row 3 with row2 = 41 and row3 = 42, write_id_str transmits the
checksummed frame built from 0002 and row2, not the frame built from
0002 and row3 that the claim and the docstring describe. -/
theorem claim_C7_code_eval :
    write_id_str sendNone 3 "41" "42" 1 1 = (.ok false, [[0, 2, 65, 67]])
    ∧ add_checksum ("0002" ++ "42") = some [0, 2, 66, 68]
    ∧ [[0, 2, 65, 67]] ≠ ([[0, 2, 66, 68]] : List (List Nat)) := by
  refine ⟨by decide, by decide, by decide⟩

/-- Claim C8: a row string longer than 20 characters makes
write_id_str return false immediately, with no message handed to the
transport. -/
theorem claim_C8 : ∀ (send : SendFn) (w : Int) (row2 row3 : String) (t dt : Nat),
    row2.length > 20 ∨ row3.length > 20 →
    write_id_str send w row2 row3 t dt = (.ok false, []) := by
  intro send w row2 row3 t dt h
  unfold write_id_str
  rw [if_pos h]

/-- Witness for claim C8 at a 21-character row2. -/
theorem claim_C8_witness :
    write_id_str sendNone 2 "aaaaaaaaaaaaaaaaaaaaa" "" 1 1 = (.ok false, []) :=
  claim_C8 sendNone 2 "aaaaaaaaaaaaaaaaaaaaa" "" 1 1 (by decide)

/-- Claim C9, counterexample: on the byte 0xA0 the generator yields
the two-character string 10 for the high nibble, which is not a
single decimal digit character. -/
theorem claim_C9_counterexample :
    bcdDigits [160] = ["10", "0"] ∧ isDigitStr "10" = false := by
  exact ⟨by decide, rfl⟩

/-- Claim C9 as amended: when every nibble of the input is either a
decimal digit or the 0xF terminator, every element yielded by
bcdDigits is a single decimal digit character. -/
theorem claim_C9_amended : ∀ bs : List Nat,
    (∀ b ∈ bs, (b >>> 4 = 15 ∨ b >>> 4 ≤ 9) ∧ (b &&& 15 = 15 ∨ b &&& 15 ≤ 9)) →
    ∀ s ∈ bcdDigits bs, isDigitStr s = true := by
  intro bs
  induction bs with
  | nil =>
    intro _ s hs
    simp [bcdDigits] at hs
  | cons c rest ih =>
    intro h s hs
    have hc := h c (List.mem_cons_self c rest)
    have hr := fun b hb => h b (List.mem_cons_of_mem c hb)
    unfold bcdDigits at hs
    by_cases h1 : c >>> 4 = 15
    · rw [if_pos h1] at hs
      simp at hs
    · rw [if_neg h1] at hs
      have hhi : c >>> 4 < 10 := by
        rcases hc.1 with h15 | h9
        · exact absurd h15 h1
        · omega
      by_cases h2 : c &&& 15 = 15
      · rw [if_pos h2] at hs
        rw [List.mem_singleton] at hs
        rw [hs]
        exact isDigitStr_toString _ hhi
      · rw [if_neg h2] at hs
        have hlo : c &&& 15 < 10 := by
          rcases hc.2 with h15 | h9
          · exact absurd h15 h2
          · omega
        simp only [List.mem_cons] at hs
        rcases hs with hs | hs | hs
        · rw [hs]; exact isDigitStr_toString _ hhi
        · rw [hs]; exact isDigitStr_toString _ hlo
        · exact ih hr s hs

/-- Witness for the amended claim C9 on the bytes 0x12 0xF0. -/
theorem claim_C9_witness : isDigitStr "1" = true :=
  claim_C9_amended [18, 240] (by decide) "1" (by decide)

/-- Claim C10, counterexample: with which_row = 99 and the 2-character
row2 = zz, write_id_str does not return false: building the row-2
frame raises a ValueError (zz is not parsable as hex), because the
frame is built before which_row is inspected. -/
theorem claim_C10_counterexample :
    write_id_str sendNone 99 "zz" "" 1 1 = (.error .valueError, [])
    ∧ write_id_str sendNone 99 "zz" "" 1 1 ≠ (.ok false, []) := by
  exact ⟨by decide, by decide⟩

/-- Claim C10 as amended: for every which_row outside 0, 2 and 3,
with row strings of at most 20 characters and a row2 for which the
row-2 frame construction succeeds, write_id_str returns false and
hands no message to the transport. -/
theorem claim_C10_amended :
    ∀ (send : SendFn) (w : Int) (row2 row3 : String) (t dt : Nat),
    w ≠ 0 → w ≠ 2 → w ≠ 3 → row2.length ≤ 20 → row3.length ≤ 20 →
    (add_checksum ("0001" ++ row2)).isSome = true →
    write_id_str send w row2 row3 t dt = (.ok false, []) := by
  intro send w row2 row3 t dt h0 h2 h3 hl2 hl3 hcs
  unfold write_id_str
  rw [if_neg (by omega)]
  dsimp only
  split
  · next heq =>
    rw [heq] at hcs
    simp at hcs
  · rw [if_neg h0, if_neg h2, if_neg h3]

/-- Witness for the amended claim C10 at which_row = 99. -/
theorem claim_C10_witness : write_id_str sendNone 99 "" "" 1 1 = (.ok false, []) :=
  claim_C10_amended sendNone 99 "" "" 1 1 (by decide) (by decide) (by decide)
    (by decide) (by decide) (by decide)

/-- Two-at-a-time induction principle for character lists, matching
the two-character stride of the hex chunking. -/
theorem twoStepInd {P : List Char → Prop} (h0 : P []) (h1 : ∀ c, P [c])
    (h2 : ∀ a b rest, P rest → P (a :: b :: rest)) : ∀ l, P l
  | [] => h0
  | [c] => h1 c
  | a :: b :: rest => h2 a b rest (twoStepInd h0 h1 h2 rest)

/-- Parsing a two-character hex chunk. -/
theorem pyIntHex_pair {a b : Char} {va vb : Nat} (ha : hexVal? a = some va)
    (hb : hexVal? b = some vb) : pyIntHex [a, b] = some (16 * va + vb) := by
  simp [pyIntHex, pyIntHexGo, ha, hb]

/-- On an even-length all-hex input, a2bHex succeeds, produces one
byte per chunk, and the chunk sum computed by _add_checksum is the
sum of those bytes. -/
theorem a2bHex_even_spec : ∀ l : List Char, l.length % 2 = 0 →
    (∀ c ∈ l, (hexVal? c).isSome = true) →
    ∃ bs, a2bHex l = some bs ∧ bs.length = l.length / 2 ∧
      sumHexChunks (chunkPairs l) = some bs.sum := by
  refine twoStepInd ?_ ?_ ?_
  · intro _ _
    exact ⟨[], rfl, rfl, rfl⟩
  · intro c hlen _
    simp at hlen
  · intro a b rest ih hlen hhex
    obtain ⟨va, hva⟩ := Option.isSome_iff_exists.mp (hhex a (by simp))
    obtain ⟨vb, hvb⟩ := Option.isSome_iff_exists.mp (hhex b (by simp))
    have hlen' : rest.length % 2 = 0 := by
      simp only [List.length_cons] at hlen
      omega
    obtain ⟨bs, hbs, hblen, hbsum⟩ :=
      ih hlen' (fun c hc => hhex c (by simp [hc]))
    refine ⟨(16 * va + vb) :: bs, ?_, ?_, ?_⟩
    · simp only [a2bHex, hva, hvb, hbs]
    · simp only [List.length_cons, hblen]
      omega
    · simp only [chunkPairs, sumHexChunks, pyIntHex_pair hva hvb, hbsum, List.sum_cons]

/-- Appending to an even-length well-formed hex string decodes to the
concatenation of the decodings. -/
theorem a2bHex_append : ∀ l1 : List Char, l1.length % 2 = 0 → ∀ (l2 : List Char)
    (bs1 : List Nat), a2bHex l1 = some bs1 →
    a2bHex (l1 ++ l2) = (a2bHex l2).map (fun t => bs1 ++ t) := by
  refine twoStepInd ?_ ?_ ?_
  · intro _ l2 bs1 h
    have hb : bs1 = [] := by
      simpa [a2bHex] using h.symm
    subst hb
    cases hL2 : a2bHex l2 <;> simp [hL2]
  · intro c hlen
    simp at hlen
  · intro a b rest ih hlen l2 bs1 h
    simp only [a2bHex] at h
    split at h
    · next hi lo t hA hB hR =>
      cases h
      have hlen' : rest.length % 2 = 0 := by
        simp only [List.length_cons] at hlen
        omega
      show a2bHex (a :: b :: (rest ++ l2)) = _
      simp only [a2bHex, hA, hB, ih hlen' l2 t hR]
      cases hL2 : a2bHex l2 <;> simp [hL2]
    · cases h

/-- hexDig inverts through hexVal? below 16. -/
theorem hexVal_hexDig : ∀ v : Nat, v < 16 → hexVal? (hexDig v) = some v := by
  decide

/-- A nonzero hex digit is neither the zero character nor x, so
lstrip does not remove it. -/
theorem hexDig_notStrip : ∀ v : Nat, v < 16 → 1 ≤ v →
    (hexDig v == '0' || hexDig v == 'x') = false := by
  decide

/-- The last two characters of a list ending in two characters. -/
theorem takeLast2_append (pre : List Char) (a b : Char) :
    takeLast2 (pre ++ [a, b]) = [a, b] := by
  unfold takeLast2
  rw [List.length_append]
  have h : pre.length + [a, b].length - 2 = pre.length := by simp
  rw [h, List.drop_left]

/-- Decoding the two-digit checksum chunk. -/
theorem a2bHex_csPair {d1 d2 : Nat} (h1 : d1 < 16) (h2 : d2 < 16) :
    a2bHex [hexDig d1, hexDig d2] = some [16 * d1 + d2] := by
  simp only [a2bHex, hexVal_hexDig d1 h1, hexVal_hexDig d2 h2]

/-- The checksum rendering of _add_checksum always produces exactly
two hex digit characters whose value is the byte sum modulo 256:
above 255 via the last-two-characters slice of hex(cs), otherwise via
lstrip and zfill. -/
theorem csChars_spec : ∀ cs : Nat, ∃ d1 d2 : Nat,
    zfill2 (if cs > 255 then takeLast2 (pyHex cs) else lstrip0x (pyHex cs))
      = [hexDig d1, hexDig d2] ∧ d1 < 16 ∧ d2 < 16 ∧ 16 * d1 + d2 = cs % 256 := by
  intro cs
  by_cases h255 : cs > 255
  · rw [if_pos h255]
    refine ⟨cs / 16 % 16, cs % 16, ?_, by omega, by omega, by omega⟩
    have h1 : natHexDigits cs
        = natHexDigits (cs / 256) ++ [hexDig (cs / 16 % 16), hexDig (cs % 16)] := by
      rw [natHexDigits_ge (by omega), natHexDigits_ge (show 16 ≤ cs / 16 by omega)]
      rw [Nat.div_div_eq_div_mul]
      simp
    rw [pyHex, h1]
    show zfill2 (takeLast2 (('0' :: 'x' :: natHexDigits (cs / 256))
      ++ [hexDig (cs / 16 % 16), hexDig (cs % 16)])) = _
    rw [takeLast2_append]
    rfl
  · rw [if_neg h255]
    by_cases h0 : cs = 0
    · subst h0
      exact ⟨0, 0, by decide, by omega, by omega, by omega⟩
    · by_cases h16 : cs < 16
      · refine ⟨0, cs, ?_, by omega, by omega, by omega⟩
        rw [pyHex, natHexDigits_lt h16]
        show zfill2 (List.dropWhile (fun c => c == '0' || c == 'x') [hexDig cs])
          = [hexDig 0, hexDig cs]
        rw [List.dropWhile_cons, hexDig_notStrip cs (by omega) (by omega)]
        rfl
      · refine ⟨cs / 16, cs % 16, ?_, by omega, by omega, by omega⟩
        rw [pyHex, natHexDigits_ge (by omega), natHexDigits_lt (show cs / 16 < 16 by omega)]
        show zfill2 (List.dropWhile (fun c => c == '0' || c == 'x')
          [hexDig (cs / 16), hexDig (cs % 16)]) = [hexDig (cs / 16), hexDig (cs % 16)]
        rw [List.dropWhile_cons, hexDig_notStrip (cs / 16) (by omega) (by omega)]
        rfl

/-- Claim C1: on every even-length hex string, _add_checksum returns
one more byte than the input encodes, and the final byte is the sum
of the preceding bytes modulo 256. -/
theorem claim_C1 : ∀ h : String, h.toList.length % 2 = 0 →
    (∀ c ∈ h.toList, (hexVal? c).isSome = true) →
    (add_checksum h).isSome = true
    ∧ ((add_checksum h).getD []).length = h.toList.length / 2 + 1
    ∧ ((add_checksum h).getD []).getLast?
        = some ((((add_checksum h).getD []).dropLast).sum % 256) := by
  intro h hlen hhex
  obtain ⟨bs, hbs, hblen, hbsum⟩ := a2bHex_even_spec h.toList hlen hhex
  obtain ⟨d1, d2, hzf, hd1, hd2, hval⟩ := csChars_spec bs.sum
  have hout : add_checksum h = some (bs ++ [bs.sum % 256]) := by
    unfold add_checksum
    split
    · next heq =>
      rw [heq] at hbsum
      cases hbsum
    · next cs heq =>
      rw [heq] at hbsum
      have hcs : cs = bs.sum := Option.some.inj hbsum
      subst hcs
      dsimp only
      rw [hzf, a2bHex_append h.toList hlen _ bs hbs, a2bHex_csPair hd1 hd2, hval]
      rfl
  rw [hout]
  refine ⟨rfl, ?_, ?_⟩
  · simp only [Option.getD_some, List.length_append, List.length_cons,
      List.length_nil, hblen]
  · simp only [Option.getD_some, List.getLast?_concat, List.dropLast_concat]

/-- Witness for claim C1 at the hex string 0001. -/
theorem claim_C1_witness :
    (add_checksum "0001").isSome = true
    ∧ ((add_checksum "0001").getD []).length = "0001".toList.length / 2 + 1
    ∧ ((add_checksum "0001").getD []).getLast?
        = some ((((add_checksum "0001").getD []).dropLast).sum % 256) :=
  claim_C1 "0001" (by decide) (by decide)

/-- A list of length six has exactly six elements. -/
theorem list6_of_length : ∀ l : List Nat, l.length = 6 →
    ∃ b0 b1 b2 b3 b4 b5, l = [b0, b1, b2, b3, b4, b5] := by
  intro l h
  rcases l with _ | ⟨b0, _ | ⟨b1, _ | ⟨b2, _ | ⟨b3, _ | ⟨b4, _ | ⟨b5, _ | ⟨b6, tl⟩⟩⟩⟩⟩⟩⟩
  all_goals simp only [List.length_cons, List.length_nil] at h
  all_goals try omega
  exact ⟨b0, b1, b2, b3, b4, b5, rfl⟩

/-- Inversion for a BCD decode that yields at least two strings: both
nibbles of the first byte were rendered and decoding continued. -/
theorem bcd_cons_inv {c : Nat} {rest : List Nat} {x y : String} {t : List String}
    (h : bcdDigits (c :: rest) = x :: y :: t) :
    toString (c >>> 4) = x ∧ toString (c &&& 15) = y ∧ bcdDigits rest = t := by
  unfold bcdDigits at h
  by_cases h1 : c >>> 4 = 15
  · rw [if_pos h1] at h
    cases h
  · rw [if_neg h1] at h
    by_cases h2 : c &&& 15 = 15
    · rw [if_pos h2] at h
      obtain ⟨-, h'⟩ := List.cons.inj h
      cases h'
    · rw [if_neg h2] at h
      obtain ⟨hx, h'⟩ := List.cons.inj h
      obtain ⟨hy, ht⟩ := List.cons.inj h'
      exact ⟨hx, hy, ht⟩

set_option maxRecDepth 4096 in
/-- On bytes, the right shift by four is division by sixteen. -/
theorem shiftRight4_eq : ∀ b : Nat, b < 256 → b >>> 4 = b / 16 := by
  decide

set_option maxRecDepth 4096 in
/-- On bytes, masking with 0xF is the remainder modulo sixteen. -/
theorem and15_eq : ∀ b : Nat, b < 256 → b &&& 15 = b % 16 := by
  decide

/-- Rendering with str is injective on nibble values. -/
theorem toString_inj16 : ∀ v : Nat, v < 16 → ∀ d : Nat, d < 16 →
    toString v = toString d → v = d := by
  decide

/-- A byte below 256 is recovered from the rendered forms of its two
nibbles. -/
theorem byte_from_digits {b : Nat} (hb : b < 256) (hi lo : Nat)
    (hhi : hi < 16) (hlo : lo < 16)
    (h1 : toString (b >>> 4) = toString hi) (h2 : toString (b &&& 15) = toString lo) :
    b = 16 * hi + lo := by
  rw [shiftRight4_eq b hb] at h1
  rw [and15_eq b hb] at h2
  have e1 : b / 16 = hi := toString_inj16 _ (by omega) _ hhi h1
  have e2 : b % 16 = lo := toString_inj16 _ (by omega) _ hlo h2
  omega

/-- Evaluation of the read_datetime decode path on the payload whose
BCD digits spell 05 09 23 14 30 00. -/
theorem readDatetimeDecode_eval {r : List Nat}
    (h : (r.drop 2).take 6 = [5, 9, 35, 20, 48, 0]) :
    readDatetimeDecode r = .ok ⟨2023, 9, 5, 14, 30, 0⟩ := by
  unfold readDatetimeDecode
  rw [h]
  rfl

/-- Claim C3: a 10-byte reply whose bytes 2..8 BCD-decode to the
digit string 050923143000 makes read_datetime return the timestamp
2023-09-05T14:30:00, and a transport failure (no reply or empty
reply) makes it return the sentinel 0001-01-01T00:00:00. -/
theorem claim_C3 : ∀ resp : List Nat, resp.length = 10 →
    (∀ b ∈ resp, b < 256) →
    bcdDigits ((resp.drop 2).take 6)
      = ["0", "5", "0", "9", "2", "3", "1", "4", "3", "0", "0", "0"] →
    read_datetime (some resp) = .ok ⟨2023, 9, 5, 14, 30, 0⟩
    ∧ read_datetime none = .ok ⟨1, 1, 1, 0, 0, 0⟩
    ∧ read_datetime (some []) = .ok ⟨1, 1, 1, 0, 0, 0⟩ := by
  intro resp hlen hlt hbcd
  refine ⟨?_, rfl, rfl⟩
  have hm6 : ((resp.drop 2).take 6).length = 6 := by
    simp [List.length_take, List.length_drop, hlen]
  obtain ⟨b0, b1, b2, b3, b4, b5, hmid⟩ := list6_of_length _ hm6
  rw [hmid] at hbcd
  obtain ⟨e0h, e0l, hbcd⟩ := bcd_cons_inv hbcd
  obtain ⟨e1h, e1l, hbcd⟩ := bcd_cons_inv hbcd
  obtain ⟨e2h, e2l, hbcd⟩ := bcd_cons_inv hbcd
  obtain ⟨e3h, e3l, hbcd⟩ := bcd_cons_inv hbcd
  obtain ⟨e4h, e4l, hbcd⟩ := bcd_cons_inv hbcd
  obtain ⟨e5h, e5l, -⟩ := bcd_cons_inv hbcd
  have hmem : ∀ b ∈ [b0, b1, b2, b3, b4, b5], b < 256 := by
    intro b hb
    apply hlt
    have hmid' : b ∈ (resp.drop 2).take 6 := by
      rw [hmid]
      exact hb
    exact List.drop_subset 2 resp (List.take_subset 6 _ hmid')
  have hb0 : b0 = 5 := by
    have := byte_from_digits (hmem b0 (by simp)) 0 5 (by omega) (by omega)
      (by rw [e0h]; decide) (by rw [e0l]; decide)
    omega
  have hb1 : b1 = 9 := by
    have := byte_from_digits (hmem b1 (by simp)) 0 9 (by omega) (by omega)
      (by rw [e1h]; decide) (by rw [e1l]; decide)
    omega
  have hb2 : b2 = 35 := by
    have := byte_from_digits (hmem b2 (by simp)) 2 3 (by omega) (by omega)
      (by rw [e2h]; decide) (by rw [e2l]; decide)
    omega
  have hb3 : b3 = 20 := by
    have := byte_from_digits (hmem b3 (by simp)) 1 4 (by omega) (by omega)
      (by rw [e3h]; decide) (by rw [e3l]; decide)
    omega
  have hb4 : b4 = 48 := by
    have := byte_from_digits (hmem b4 (by simp)) 3 0 (by omega) (by omega)
      (by rw [e4h]; decide) (by rw [e4l]; decide)
    omega
  have hb5 : b5 = 0 := by
    have := byte_from_digits (hmem b5 (by simp)) 0 0 (by omega) (by omega)
      (by rw [e5h]; decide) (by rw [e5l]; decide)
    omega
  have hslice : (resp.drop 2).take 6 = [5, 9, 35, 20, 48, 0] := by
    rw [hmid, hb0, hb1, hb2, hb3, hb4, hb5]
  have hne : ¬resp = [] := by
    intro he
    rw [he] at hlen
    cases hlen
  show (if resp = [] then pyDatetime 1 1 1 0 0 0 else readDatetimeDecode resp) = _
  rw [if_neg hne]
  exact readDatetimeDecode_eval hslice

/-- Witness for claim C3 at the concrete reply 00 0c 05 09 23 14 30
00 00 00 and at the two failure outcomes. -/
theorem claim_C3_witness :
    read_datetime (some [0, 12, 5, 9, 35, 20, 48, 0, 0, 0]) = .ok ⟨2023, 9, 5, 14, 30, 0⟩
    ∧ read_datetime none = .ok ⟨1, 1, 1, 0, 0, 0⟩
    ∧ read_datetime (some []) = .ok ⟨1, 1, 1, 0, 0, 0⟩ :=
  claim_C3 [0, 12, 5, 9, 35, 20, 48, 0, 0, 0] (by decide) (by decide) (by decide)

end GuaritaIP
